import Mathlib

/-!
Verification development for the ALOHA protocol simulation (aloha.py).

The development shallowly embeds the data model and the operations of the
simulation source: the Frame record, the shared frames-in-transmit registry
together with the collision check, a trace semantics for the sequence of
register/check operations the stations perform on the registry, the
per-station statistical counters with the transient reset, the report
arithmetic, and a deterministic event scheduler.  Machine reals of the
source reports are modelled by rationals.  All definitions are executable.
-/

/-! ### Simulation constants (aloha.py lines 10-14) -/

def NUM_STATIONS : Nat := 8

def NUM_REPLICATIONS : Nat := 10

def TRANSIENT_TIME : Nat := 25

def TERMINATE_TIME : Nat := 10000

def STEADY_STATE_TIME : Nat := TERMINATE_TIME - TRANSIENT_TIME

/-! ### Frames and the shared registry (aloha.py lines 22-32, 36, 109-137) -/

/-- Frame record (aloha.py lines 22-29).  The Python attribute `end` is
spelled `end_` because `end` is a reserved word in Lean. -/
structure Frame where
  start : Nat
  end_ : Nat
  frame_time : Nat
  retry : Bool
deriving DecidableEq, Repr

/-- Transmission identifier: the source uses the pair
`(self.name, name)` = (station name, message name) as `frame_id`. -/
abbrev FrameId := String × String

/-- Frame construction for a transmit attempt (aloha.py lines 110-114):
start at the current virtual time, end after `frame_time`, retry flag off. -/
def create_frame (now frame_time : Nat) : Frame :=
  { start := now, end_ := now + frame_time, frame_time := frame_time, retry := false }

/-- Lookup in the registry: the dictionary access
`Station.frames_in_transmit[key]`.  The registry dictionary is modelled as an
association list; dictionary iteration order is irrelevant to the source
behaviour (the collision scan is an existence check and the broadcast updates
every entry). -/
def findId : List (FrameId × Frame) → FrameId → Option Frame
  | [], _ => none
  | p :: rest, i => if p.1 = i then some p.2 else findId rest i

/-- Removal of the binding of a key, as dictionary `pop` does
(aloha.py lines 121-122). -/
def eraseId : List (FrameId × Frame) → FrameId → List (FrameId × Frame)
  | [], _ => []
  | p :: rest, i => if p.1 = i then rest else p :: eraseId rest i

/-- Dictionary assignment `Station.frames_in_transmit[frame_id] = frame`
(aloha.py lines 117-118): the new binding replaces any previous binding of
the same key. -/
def add_frame_in_transmit (reg : List (FrameId × Frame)) (frame : Frame)
    (frame_id : FrameId) : List (FrameId × Frame) :=
  (frame_id, frame) :: eraseId reg frame_id

/-- Removal of a frame from the frames currently in transmit
(aloha.py lines 121-122). -/
def remove_frame_in_transmit (reg : List (FrameId × Frame)) (frame_id : FrameId) :
    List (FrameId × Frame) :=
  eraseId reg frame_id

/-- The local `has_collision` flag computed by the scan of
`check_collision` (aloha.py lines 127-132): some currently registered frame
under a key other than `frame_id` satisfies
`other.end > frame.start and other.start < frame.end`. -/
def has_collision (reg : List (FrameId × Frame)) (frame : Frame)
    (frame_id : FrameId) : Bool :=
  reg.any fun p =>
    decide (p.1 ≠ frame_id) && decide (frame.start < p.2.end_) &&
      decide (p.2.start < frame.end_)

/-- The broadcast of aloha.py lines 135-137: every registered frame has its
retry flag set. -/
def set_all_retry (reg : List (FrameId × Frame)) : List (FrameId × Frame) :=
  reg.map fun p => (p.1, { p.2 with retry := true })

/-- Collision check (aloha.py lines 125-137), acting on the registry state:
if the scan detects an overlap, all registered frames are marked for retry;
otherwise the registry is left as it is. -/
def check_collision (reg : List (FrameId × Frame)) (frame : Frame)
    (frame_id : FrameId) : List (FrameId × Frame) :=
  if has_collision reg frame frame_id then set_all_retry reg else reg

/-! ### Trace semantics of the registry operations

During a run the registry is touched only inside `Station.transmit`
(aloha.py lines 153-162): an attempt registers its frame at its start time,
and, at its end time, runs the collision check and immediately deregisters
(no suspension point separates lines 161 and 162, so the pair is one atomic
step).  A run of the system therefore induces a sequence of register and
check operations on the shared registry, which is the trace semantics below.
The `finished` component records, for each completed attempt, the frame
object together with the retry flag that `transmit` reads right after the
check (aloha.py line 165); the frame passed to `check_collision` is the very
object stored in the registry, so its flag after the call is the registry
entry flag after the broadcast. -/

inductive Op where
  | register (frame_id : FrameId) (start frame_time : Nat)
  | check (frame_id : FrameId)
deriving DecidableEq, Repr

/-- An operation mentions the given transmission identifier. -/
def usesId : Op → FrameId → Bool
  | Op.register fid _ _, i => decide (fid = i)
  | Op.check fid, i => decide (fid = i)

structure ChanState where
  frames_in_transmit : List (FrameId × Frame)
  finished : List (FrameId × Frame)
deriving DecidableEq, Repr

def chanInit : ChanState := { frames_in_transmit := [], finished := [] }

/-- One registry operation.  Registration creates the frame at its start
time (aloha.py lines 154-156).  A check runs `check_collision` on the frame
currently registered under the identifier, records the resulting retry flag
of that frame, and then removes it (aloha.py lines 161-162). -/
def stepA (st : ChanState) : Op → ChanState
  | Op.register fid s ft =>
      { st with
        frames_in_transmit :=
          add_frame_in_transmit st.frames_in_transmit (create_frame s ft) fid }
  | Op.check fid =>
      match findId st.frames_in_transmit fid with
      | none => st
      | some frame =>
          let frame2 :=
            if has_collision st.frames_in_transmit frame fid then
              { frame with retry := true }
            else frame
          { frames_in_transmit :=
              remove_frame_in_transmit
                (check_collision st.frames_in_transmit frame fid) fid,
            finished := (fid, frame2) :: st.finished }

def runOps (ops : List Op) : ChanState := ops.foldl stepA chanInit

/-- State of the registry after the first `n` operations of the trace. -/
def stateAt (tr : List Op) (n : Nat) : ChanState := (tr.take n).foldl stepA chanInit

/-- The operation at position `k`, when present, does not mention `fid`. -/
def opFreeOfId (tr : List Op) (fid : FrameId) (k : Nat) : Bool :=
  match tr.get? k with
  | some op => !(usesId op fid)
  | none => true

/-- No operation strictly between positions `i` and `j` mentions `fid`. -/
def noIdOpBetween (tr : List Op) (fid : FrameId) (i j : Nat) : Prop :=
  ∀ k, k < j → i < k → opFreeOfId tr fid k = true

/-- One transmission attempt inside a trace: its register operation at
position `i`, its matching check at position `j`, and no other operation of
the same identifier in between (attempts under one identifier are strictly
sequential in the source, aloha.py lines 153-162). -/
def AttemptAt (tr : List Op) (fid : FrameId) (s d i j : Nat) : Prop :=
  i < j ∧ tr.get? i = some (Op.register fid s d) ∧
    tr.get? j = some (Op.check fid) ∧ noIdOpBetween tr fid i j

/-! ### Well-formed timed traces

A run of the scheduler assigns a virtual time to every operation: a frame is
registered at its start time and checked at its end time, virtual time never
decreases along the run, frame durations are strictly positive (the source
resamples until the drawn duration is nonzero, aloha.py lines 99-107), and
at one and the same timestamp every check callback runs before any
registration: pending frame timeouts were scheduled strictly earlier than the
freshly scheduled resumptions through which a registration is reached, and
the event queue fires same-time events in scheduling order (spec section 5).
-/

/-- Virtual time never decreases along the trace. -/
def timesMono (tr : List Op) (tau : Nat → Nat) : Prop :=
  ∀ l, l < tr.length → ∀ k, k ≤ l → tau k ≤ tau l

/-- Register operations happen at the start time of their frame and carry a
positive duration. -/
def regTimeOkB (tr : List Op) (tau : Nat → Nat) (k : Nat) : Bool :=
  match tr.get? k with
  | some (Op.register _ s d) => decide (tau k = s) && decide (0 < d)
  | _ => true

def regTimesOk (tr : List Op) (tau : Nat → Nat) : Prop :=
  ∀ k, k < tr.length → regTimeOkB tr tau k = true

/-- Position `i` carries the register operation matching the check of `fid`
at position `k`: same identifier, the check happens at the end time of the
registered frame, and no operation of the identifier lies in between. -/
def regMatchB (tr : List Op) (tau : Nat → Nat) (fid : FrameId) (i k : Nat) : Bool :=
  match tr.get? i with
  | some (Op.register fid2 s d) =>
      decide (fid2 = fid) && decide (tau k = s + d) &&
        decide (∀ m, m < k → i < m → opFreeOfId tr fid m = true)
  | _ => false

/-- Every check operation has a matching earlier register operation. -/
def chkMatchB (tr : List Op) (tau : Nat → Nat) (k : Nat) : Bool :=
  match tr.get? k with
  | some (Op.check fid) => decide (∃ i, i < k ∧ regMatchB tr tau fid i k = true)
  | _ => true

def checksMatched (tr : List Op) (tau : Nat → Nat) : Prop :=
  ∀ k, k < tr.length → chkMatchB tr tau k = true

/-- At equal timestamps, check callbacks run before registrations. -/
def eqTimeOkB (tr : List Op) (tau : Nat → Nat) (k l : Nat) : Bool :=
  match tr.get? k, tr.get? l with
  | some (Op.check _), some (Op.register _ _ _) =>
      !(decide (tau k = tau l)) || decide (k < l)
  | _, _ => true

def eqTimeOrder (tr : List Op) (tau : Nat → Nat) : Prop :=
  ∀ k, k < tr.length → ∀ l, l < tr.length → eqTimeOkB tr tau k l = true

/-- Well-formedness of a timed registry trace. -/
def WFTrace (tr : List Op) (tau : Nat → Nat) : Prop :=
  timesMono tr tau ∧ regTimesOk tr tau ∧ checksMatched tr tau ∧ eqTimeOrder tr tau

instance decNoIdOpBetween (tr : List Op) (fid : FrameId) (i j : Nat) :
    Decidable (noIdOpBetween tr fid i j) :=
  decidable_of_iff (∀ k, k < j → i < k → opFreeOfId tr fid k = true) Iff.rfl

instance decAttemptAt (tr : List Op) (fid : FrameId) (s d i j : Nat) :
    Decidable (AttemptAt tr fid s d i j) :=
  decidable_of_iff
    (i < j ∧ tr.get? i = some (Op.register fid s d) ∧
      tr.get? j = some (Op.check fid) ∧ noIdOpBetween tr fid i j) Iff.rfl

instance decTimesMono (tr : List Op) (tau : Nat → Nat) :
    Decidable (timesMono tr tau) :=
  decidable_of_iff (∀ l, l < tr.length → ∀ k, k ≤ l → tau k ≤ tau l) Iff.rfl

instance decRegTimesOk (tr : List Op) (tau : Nat → Nat) :
    Decidable (regTimesOk tr tau) :=
  decidable_of_iff (∀ k, k < tr.length → regTimeOkB tr tau k = true) Iff.rfl

instance decChecksMatched (tr : List Op) (tau : Nat → Nat) :
    Decidable (checksMatched tr tau) :=
  decidable_of_iff (∀ k, k < tr.length → chkMatchB tr tau k = true) Iff.rfl

instance decEqTimeOrder (tr : List Op) (tau : Nat → Nat) :
    Decidable (eqTimeOrder tr tau) :=
  decidable_of_iff (∀ k, k < tr.length → ∀ l, l < tr.length → eqTimeOkB tr tau k l = true)
    Iff.rfl

instance decWFTrace (tr : List Op) (tau : Nat → Nat) : Decidable (WFTrace tr tau) :=
  decidable_of_iff
    (timesMono tr tau ∧ regTimesOk tr tau ∧ checksMatched tr tau ∧ eqTimeOrder tr tau)
    Iff.rfl

/-! ### The registry across replications (aloha.py lines 34-36, 266-278)

`frames_in_transmit` is a class attribute of `Station`, created once when
the class is defined and never reassigned or cleared: the very same
dictionary is used by the stations of every replication, while the simpy
environment and the stations themselves are constructed afresh in each
iteration of the main loop. -/

/-- State of the shared class-level registry at the start of replication `n`
(counting from 0): everything the previous replications did to it persists. -/
def replication_start_state (reps : List (List Op)) (n : Nat) : ChanState :=
  ((reps.take n).flatten).foldl stepA chanInit

/-- Run of one replication, starting from the inherited registry state. -/
def run_replication (st : ChanState) (ops : List Op) : ChanState :=
  ops.foldl stepA st

/-! ### Per-station statistical counters (aloha.py lines 50-66, 90-96, 147-200)

The per-station counters are touched only inside `transmit` and
`wait_for_service`, and the station server has capacity 1, so the services
of one station are strictly sequential: a run of one station is a sequence
of completed services.  A `ServiceDesc` carries the scheduler-determined
data of one service: how many attempts collided before the successful one,
the frame duration drawn for the message, the total service time added to
`st` at completion, and the virtual time of completion.  The micro states
listed by `serviceStates` are the counter states after each individual
update statement of the source, in program order: line 149 (initial
transmit count), line 166 once per collided attempt (retry count), line 170
(busy time; the increment `env.now - transmit_time` equals the frame
duration because the attempt suspends for exactly `frame.frame_time`),
lines 191-192 (successful count and cumulative service time), and lines
197-200 (the one-time transient reset). -/

structure StationState where
  nt : Nat
  st : Nat
  num_retries : Nat
  num_initial_transmits : Nat
  busy_time : Nat
  initial_reset_completed : Bool
deriving DecidableEq, Repr

def station_init : StationState :=
  { nt := 0, st := 0, num_retries := 0, num_initial_transmits := 0,
    busy_time := 0, initial_reset_completed := false }

/-- Reset of the statistical counters (aloha.py lines 90-96). -/
def reset_statistical_counters (s : StationState) : StationState :=
  { s with
      nt := 0, st := 0, num_retries := 0, num_initial_transmits := 0,
      busy_time := 0 }

structure ServiceDesc where
  collisions : Nat
  frame_time : Nat
  stime : Nat
  complete_at : Nat
deriving DecidableEq, Repr

/-- Counter states after each retry increment (aloha.py line 166). -/
def retryStates (s : StationState) : Nat → List StationState
  | 0 => []
  | k + 1 =>
      let s2 := { s with num_retries := s.num_retries + 1 }
      s2 :: retryStates s2 k

/-- Counter update of aloha.py line 149. -/
def transmit_counters_start (s : StationState) : StationState :=
  { s with num_initial_transmits := s.num_initial_transmits + 1 }

/-- Cumulative effect of the retry increments of aloha.py line 166, one per
collided attempt; the last element of `retryStates` is this state. -/
def transmit_counters_retries (s : StationState) (c : Nat) : StationState :=
  { s with num_retries := s.num_retries + c }

/-- Counter update of aloha.py line 170: the increment
`env.now - transmit_time` equals the frame duration of the successful
attempt. -/
def transmit_counters_success (s : StationState) (m : ServiceDesc) : StationState :=
  { s with busy_time := s.busy_time + m.frame_time }

/-- Counter update of aloha.py line 191. -/
def service_nt (s : StationState) : StationState := { s with nt := s.nt + 1 }

/-- Counter update of aloha.py line 192. -/
def service_st (s : StationState) (m : ServiceDesc) : StationState :=
  { s with st := s.st + m.stime }

/-- The one-time transient reset of aloha.py lines 197-200, at service
completion time. -/
def service_reset (s : StationState) (m : ServiceDesc) : StationState :=
  if s.initial_reset_completed = false ∧ TRANSIENT_TIME ≤ m.complete_at then
    { reset_statistical_counters s with initial_reset_completed := true }
  else s

/-- Counter states after each update statement of one completed service, in
program order. -/
def serviceStates (s : StationState) (m : ServiceDesc) : List StationState :=
  let s1 := transmit_counters_start s
  let s2 := transmit_counters_retries s1 m.collisions
  let s3 := transmit_counters_success s2 m
  let s4 := service_nt s3
  let s5 := service_st s4 m
  let s6 := service_reset s5 m
  s1 :: retryStates s1 m.collisions ++ [s3, s4, s5, s6]

/-- Counter state at the end of one completed service
(aloha.py lines 147-200). -/
def wait_for_service_end (s : StationState) (m : ServiceDesc) : StationState :=
  service_reset
    (service_st
      (service_nt
        (transmit_counters_success
          (transmit_counters_retries (transmit_counters_start s) m.collisions) m)) m) m

def runStation : StationState → List ServiceDesc → StationState
  | s, [] => s
  | s, m :: ms => runStation (wait_for_service_end s m) ms

/-- Every intermediate counter state of a station run. -/
def runStates (s : StationState) : List ServiceDesc → List StationState
  | [] => []
  | m :: ms => serviceStates s m ++ runStates (wait_for_service_end s m) ms

/-- Virtual times at which the service resets the statistical counters
(aloha.py lines 197-200): at completion time, when the transient cutoff has
been reached and no reset happened before. -/
def service_resets (s : StationState) (m : ServiceDesc) : List Nat :=
  if s.initial_reset_completed = false ∧ TRANSIENT_TIME ≤ m.complete_at then
    [m.complete_at]
  else []

def runResets : StationState → List ServiceDesc → List Nat
  | _, [] => []
  | s, m :: ms => service_resets s m ++ runResets (wait_for_service_end s m) ms

/-! ### Frame time generation and the transmit loop (aloha.py lines 98-171) -/

/-- Frame time generation (aloha.py lines 99-107): draw from the discrete
exponential source until the value is nonzero.  The stream of raw draws is
an input; `none` models running out of the supplied draws. -/
def generate_frame_time (draws : List Nat) : Option Nat :=
  draws.find? fun r => decide (0 < r)

/-- The frames created by the transmit loop (aloha.py lines 153-159): one
frame per attempt, every one carrying the single frame time drawn before the
loop; `nows` lists the virtual times at which the attempts start and
`outcomes` tells, per attempt, whether the collision check marked it for
retry. -/
def transmit_attempts : Nat → List Nat → List Bool → List Frame
  | _, _, [] => []
  | _, [], _ :: _ => []
  | ft, t :: ts, b :: obs =>
      create_frame t ft :: (if b then transmit_attempts ft ts obs else [])

/-- Number of collided attempts until the first success
(aloha.py lines 164-167). -/
def retries_until_success : List Bool → Nat
  | [] => 0
  | false :: _ => 0
  | true :: obs => retries_until_success obs + 1

/-- The transmit protocol for one message (aloha.py lines 147-171), returning
the increment of `num_initial_transmits`, the increment of `num_retries`,
and the attempt frames.  The frame time is drawn exactly once, before the
loop. -/
def transmit (ftDraws nows : List Nat) (outcomes : List Bool) :
    Option (Nat × Nat × List Frame) :=
  match generate_frame_time ftDraws with
  | none => none
  | some ft => some (1, retries_until_success outcomes, transmit_attempts ft nows outcomes)

/-! ### Reports (aloha.py lines 71-87, 214-247) -/

/-- Channel utilization line of the per-station report (aloha.py lines 74
and 85): cumulative busy time over `env.now - TRANSIENT_TIME`. -/
def station_report_U (busy_time now : Nat) : Rat :=
  (busy_time : Rat) / ((now : Rat) - (TRANSIENT_TIME : Rat))

/-- System-wide channel utilization (aloha.py line 243). -/
def system_report_U (total_busy_time : Nat) : Rat :=
  (total_busy_time : Rat) / (STEADY_STATE_TIME : Rat)

/-- Report for a single replication (aloha.py lines 214-247).  The mean
transmit time division is guarded (lines 230-235); the mean retries division
at line 237 is not, and Python raises `ZeroDivisionError` when
`total_initial_transmits` is zero, which the exceptional result models. -/
def generate_report_single_replication (stations : List StationState) :
    Except String (Rat × Rat × Rat) :=
  let total_st := (stations.map fun s => s.st).sum
  let total_nt := (stations.map fun s => s.nt).sum
  let total_retries := (stations.map fun s => s.num_retries).sum
  let total_initial_transmits := (stations.map fun s => s.num_initial_transmits).sum
  let total_busy_time := (stations.map fun s => s.busy_time).sum
  let mean_t : Rat := if 0 < total_nt then (total_st : Rat) / (total_nt : Rat) else 0
  if total_initial_transmits = 0 then
    Except.error ("ZeroDivisionError")
  else
    Except.ok
      (mean_t, (total_retries : Rat) / (total_initial_transmits : Rat),
        system_report_U total_busy_time)

/-! ### Counted successful attempts for the utilization bound -/

/-- One successful transmission attempt counted into the busy time of a
station: its attempt in the registry trace finished with the retry flag off,
and, since only checks fired before the termination horizon remove a frame
and record it, its interval ends at or before the horizon.  Where the
interval lies relative to the transient cutoff depends on whether the
station ever reset, so no cutoff bound is part of this notion. -/
structure CountedAttempt where
  fid : FrameId
  s : Nat
  d : Nat
  i : Nat
  j : Nat
deriving DecidableEq, Repr

def countedOk (tr : List Op) (a : CountedAttempt) : Prop :=
  AttemptAt tr a.fid a.s a.d a.i a.j ∧
    (stateAt tr (a.j + 1)).finished.head? =
      some (a.fid, { start := a.s, end_ := a.s + a.d, frame_time := a.d, retry := false }) ∧
    a.s + a.d ≤ TERMINATE_TIME

/-- Busy time of a station as accumulated by aloha.py line 170: the sum of
the durations of its counted successful attempts. -/
def busyOf (L : List CountedAttempt) : Nat := (L.map fun a => a.d).sum

/-- Strict interval intersection of two half-open intervals given as
(start, duration) pairs, as in the collision scan of aloha.py line 131. -/
def intervalsOverlap (a b : Nat × Nat) : Prop :=
  a.1 < b.1 + b.2 ∧ b.1 < a.1 + a.2

instance decIntervalsOverlap (a b : Nat × Nat) : Decidable (intervalsOverlap a b) :=
  decidable_of_iff (a.1 < b.1 + b.2 ∧ b.1 < a.1 + a.2) Iff.rfl

instance decCountedOk (tr : List Op) (a : CountedAttempt) :
    Decidable (countedOk tr a) :=
  decidable_of_iff
    (AttemptAt tr a.fid a.s a.d a.i a.j ∧
      (stateAt tr (a.j + 1)).finished.head? =
        some (a.fid, { start := a.s, end_ := a.s + a.d, frame_time := a.d, retry := false }) ∧
      a.s + a.d ≤ TERMINATE_TIME) Iff.rfl

/-! ### Deterministic event scheduler and whole-system run

Modelled from the spec: the discrete-event engine itself (the simpy
environment) is an external dependency, specified in sections 4.1 and 5 of
the specification: a queue of timed resumptions, virtual time advancing to
the next pending timestamp, ties at one timestamp resolved in scheduling
order, and the run abandoning events at or beyond the termination horizon.
The station logic wired into the engine below is taken from the source
(arrival generation, FIFO service, the transmit loop with collision check
and back-off, and the transient reset).  All random variates are inputs:
per-station lists of inter-arrival gaps, raw frame-time draws, and back-off
delays. -/

structure SimStationConfig where
  arrivalDraws : List Nat
  frameDraws : List Nat
  backoffDraws : List Nat
deriving DecidableEq, Repr

structure SimConfig where
  stationConfigs : List SimStationConfig
  transient_time : Nat
  terminate_time : Nat
deriving DecidableEq, Repr

structure SimStation where
  counters : StationState
  arrivalDraws : List Nat
  frameDraws : List Nat
  backoffDraws : List Nat
  pending : Nat
  serverBusy : Bool
  servedCount : Nat
  frame_time : Nat
  service_start : Nat
  curFrame : Frame
  curFid : FrameId
deriving DecidableEq, Repr

instance : Inhabited SimStation :=
  ⟨{ counters := station_init, arrivalDraws := [], frameDraws := [],
     backoffDraws := [], pending := 0, serverBusy := false, servedCount := 0,
     frame_time := 0, service_start := 0, curFrame := create_frame 0 0,
     curFid := (("Station"), ("Frame")) }⟩

inductive EvKind where
  | arrival
  | frameDone
  | backoffDone
deriving DecidableEq, Repr

/-- Modelled from the spec: a pending timed resumption of the event queue,
carrying its timestamp, its scheduling sequence number, the station it
belongs to, and what the resumption continues. -/
structure Ev where
  time : Nat
  seq : Nat
  stn : Nat
  kind : EvKind
deriving DecidableEq, Repr

structure SimState where
  now : Nat
  nextSeq : Nat
  events : List Ev
  stations : List SimStation
  frames_in_transmit : List (FrameId × Frame)
deriving DecidableEq, Repr

/-- Modelled from the spec: the event ordering of the queue, by timestamp
first and scheduling order second. -/
def evBefore (a b : Ev) : Bool :=
  decide (a.time < b.time) || (decide (a.time = b.time) && decide (a.seq < b.seq))

/-- Modelled from the spec: selection of the next event to fire. -/
def pickMin : List Ev → Option Ev
  | [] => none
  | e :: rest =>
      match pickMin rest with
      | none => some e
      | some m => if evBefore m e then some m else some e

def removeEv (l : List Ev) (seq : Nat) : List Ev :=
  l.filter fun e => decide (e.seq ≠ seq)

/-- Modelled from the spec: scheduling appends to the queue with a fresh,
strictly increasing sequence number. -/
def schedule (st : SimState) (t stn : Nat) (k : EvKind) : SimState :=
  { st with
      events := st.events ++ [{ time := t, seq := st.nextSeq, stn := stn, kind := k }],
      nextSeq := st.nextSeq + 1 }

def getStation (st : SimState) (i : Nat) : SimStation := st.stations.getD i default

def setStation (st : SimState) (i : Nat) (s : SimStation) : SimState :=
  { st with stations := st.stations.set i s }

/-- Transmission identifier of the source: the station name together with
the message name (aloha.py lines 155, 209, 273). -/
def mkFid (i m : Nat) : FrameId :=
  (("Station ") ++ toString i, ("Frame ") ++ toString m)

/-- Frame time generation consuming the raw draw stream
(aloha.py lines 99-107). -/
def draw_positive : List Nat → Option (Nat × List Nat)
  | [] => none
  | r :: rest => if 0 < r then some (r, rest) else draw_positive rest

/-- Start of one transmission attempt (aloha.py lines 154-159): create the
frame at the current time, register it, and suspend for its duration. -/
def begin_attempt (st : SimState) (i : Nat) : SimState :=
  let s := getStation st i
  let frame := create_frame st.now s.frame_time
  let st2 := setStation st i { s with curFrame := frame }
  let st3 :=
    { st2 with
        frames_in_transmit :=
          add_frame_in_transmit st2.frames_in_transmit frame s.curFid }
  schedule st3 (st.now + s.frame_time) i EvKind.frameDone

/-- Start of the service of the next queued message (aloha.py lines
147-159 via lines 181-189): count the initial transmit, draw the one frame
time for the message, and start the first attempt. -/
def begin_service (st : SimState) (i : Nat) : SimState :=
  let s := getStation st i
  match draw_positive s.frameDraws with
  | none => setStation st i { s with serverBusy := true, frameDraws := [] }
  | some (ft, rest) =>
      let s2 :=
        { s with
            counters :=
              { s.counters with
                  num_initial_transmits := s.counters.num_initial_transmits + 1 },
            frameDraws := rest, frame_time := ft, service_start := st.now,
            serverBusy := true, curFid := mkFid i s.servedCount,
            servedCount := s.servedCount + 1 }
      begin_attempt (setStation st i s2) i

/-- Firing of one event: an arrival enqueues a message and schedules the
next arrival (aloha.py lines 203-211); the end of a frame timeout runs the
collision check, deregisters, and either backs off or completes the service
(aloha.py lines 161-200); the end of a back-off restarts the attempt with
the same frame time (aloha.py lines 153-159, 167). -/
def dispatch (transient : Nat) (st : SimState) (e : Ev) : SimState :=
  match e.kind with
  | EvKind.arrival =>
      let i := e.stn
      let s := getStation st i
      let stB :=
        if s.serverBusy then setStation st i { s with pending := s.pending + 1 }
        else begin_service st i
      let s3 := getStation stB i
      match s3.arrivalDraws with
      | [] => stB
      | d :: rest =>
          schedule (setStation stB i { s3 with arrivalDraws := rest })
            (st.now + d) i EvKind.arrival
  | EvKind.frameDone =>
      let i := e.stn
      let s := getStation st i
      let frame := (findId st.frames_in_transmit s.curFid).getD s.curFrame
      let collided := frame.retry || has_collision st.frames_in_transmit frame s.curFid
      let reg2 :=
        remove_frame_in_transmit
          (check_collision st.frames_in_transmit frame s.curFid) s.curFid
      let st2 := { st with frames_in_transmit := reg2 }
      if collided then
        let s2 :=
          { s with
              counters :=
                { s.counters with num_retries := s.counters.num_retries + 1 } }
        match s2.backoffDraws with
        | [] => setStation st2 i s2
        | d :: rest =>
            schedule (setStation st2 i { s2 with backoffDraws := rest })
              (st.now + d) i EvKind.backoffDone
      else
        let c1 : StationState :=
          { s.counters with busy_time := s.counters.busy_time + s.frame_time }
        let c2 : StationState :=
          { c1 with nt := c1.nt + 1, st := c1.st + (st.now - s.service_start) }
        let c3 : StationState :=
          if c2.initial_reset_completed = false ∧ transient ≤ st.now then
            { reset_statistical_counters c2 with initial_reset_completed := true }
          else c2
        let s2 : SimStation := { s with counters := c3 }
        if 0 < s2.pending then
          begin_service (setStation st2 i { s2 with pending := s2.pending - 1 }) i
        else setStation st2 i { s2 with serverBusy := false }
  | EvKind.backoffDone => begin_attempt st e.stn

/-- Initial state: the stations are constructed in order and each schedules
its first inter-arrival timer (aloha.py lines 68, 203-208, 273). -/
def initSim (cfg : SimConfig) : SimState :=
  let st0 : SimState :=
    { now := 0, nextSeq := 0, events := [],
      stations :=
        cfg.stationConfigs.map fun c =>
          { counters := station_init, arrivalDraws := c.arrivalDraws,
            frameDraws := c.frameDraws, backoffDraws := c.backoffDraws,
            pending := 0, serverBusy := false, servedCount := 0,
            frame_time := 0, service_start := 0, curFrame := create_frame 0 0,
            curFid := (("Station"), ("Frame")) },
      frames_in_transmit := [] }
  (List.range cfg.stationConfigs.length).foldl
    (fun st i =>
      let s := getStation st i
      match s.arrivalDraws with
      | [] => st
      | d :: rest =>
          schedule (setStation st i { s with arrivalDraws := rest }) d i
            EvKind.arrival)
    st0

/-- Modelled from the spec: the run loop fires pending events in timestamp
order, ties in scheduling order, and abandons events at or beyond the
termination horizon; the fuel bounds the number of fired events. -/
def simLoop : Nat → Nat → Nat → SimState → SimState
  | 0, _, _, st => st
  | Nat.succ fuel, transient, terminate, st =>
      match pickMin (st.events.filter fun e => decide (e.time < terminate)) with
      | none => st
      | some e =>
          simLoop fuel transient terminate
            (dispatch transient { st with now := e.time, events := removeEv st.events e.seq } e)

/-- Whole-system run: final per-station counters as a function of the
parameters and the variate draw streams alone. -/
def simulate (fuel : Nat) (cfg : SimConfig) : List StationState :=
  (simLoop fuel cfg.transient_time cfg.terminate_time (initSim cfg)).stations.map
    fun s => s.counters

/-! ### Concrete inputs used by the witnesses -/

def fidA : FrameId := (("Station 0"), ("Frame 0"))

def fidB : FrameId := (("Station 1"), ("Frame 0"))

def exTrace : List Op :=
  [Op.register fidA 0 2, Op.register fidB 1 2, Op.check fidA, Op.check fidB]

def exTau : Nat → Nat := fun k => [0, 1, 2, 3].getD k 0

/-- Trace of a lone successful attempt inside the steady-state window. -/
def exTrace2 : List Op := [Op.register fidA 30 5, Op.check fidA]

def exTau2 : Nat → Nat := fun k => [30, 35].getD k 0

def exCounted : CountedAttempt := { fid := fidA, s := 30, d := 5, i := 0, j := 1 }

/-- Second message of station 1. -/
def fidB2 : FrameId := (("Station 1"), ("Frame 1"))

/-- Trace of a replication in which station 0 succeeds once before the
transient cutoff and never completes a service afterwards (so its counters
are never reset and its pre-cutoff busy time is retained at report time),
while station 1 completes a short first service at time 26 (which fires its
transient reset and discards that busy time) and then fills the rest of the
steady-state window with one long successful frame checked just before the
horizon. -/
def exTrace3 : List Op :=
  [Op.register fidA 10 10, Op.check fidA,
   Op.register fidB 25 1, Op.check fidB,
   Op.register fidB2 26 9973, Op.check fidB2]

def exTau3 : Nat → Nat := fun k => [10, 20, 25, 26, 26, 9999].getD k 0

/-- The pre-cutoff successful attempt retained by the never-reset station. -/
def cA : CountedAttempt := { fid := fidA, s := 10, d := 10, i := 0, j := 1 }

/-- The steady-state-filling successful attempt of station 1, counted after
its reset fired at time 26. -/
def cB : CountedAttempt := { fid := fidB2, s := 26, d := 9973, i := 4, j := 5 }

def exService : ServiceDesc :=
  { collisions := 0, frame_time := 2, stime := 2, complete_at := 10 }

def exServiceLate : ServiceDesc :=
  { collisions := 1, frame_time := 3, stime := 7, complete_at := 40 }

def exReps : List (List Op) := [[Op.register fidA 9999 20], []]

def exCfg : SimConfig :=
  { stationConfigs :=
      [{ arrivalDraws := [2, 5], frameDraws := [0, 3], backoffDraws := [1] },
       { arrivalDraws := [3], frameDraws := [2], backoffDraws := [2] }],
    transient_time := 25, terminate_time := 50 }

/-! ## Theorems -/

/-- Claim C1: for every call to the collision check, a collision is reported
if and only if some currently registered frame under a different identifier
has an interval that strictly intersects the checked interval
(other.end > frame.start and other.start < frame.end), and whenever such an
overlap is detected every frame currently in the registry, overlapping or
not, has its retry flag set. -/
theorem c1_collision_iff_overlap_and_broadcast :
    ∀ (reg : List (FrameId × Frame)) (frame : Frame) (frame_id : FrameId),
      (has_collision reg frame frame_id = true ↔
        ∃ p, p ∈ reg ∧ p.1 ≠ frame_id ∧ frame.start < p.2.end_ ∧
          p.2.start < frame.end_) ∧
      (has_collision reg frame frame_id = true →
        ∀ p ∈ check_collision reg frame frame_id, p.2.retry = true) := by
  intro reg frame frame_id
  constructor
  · constructor
    · intro h
      rcases List.any_eq_true.mp h with ⟨p, hp, hcond⟩
      simp only [Bool.and_eq_true, decide_eq_true_eq] at hcond
      exact ⟨p, hp, hcond.1.1, hcond.1.2, hcond.2⟩
    · intro h
      rcases h with ⟨p, hp, h1, h2, h3⟩
      refine List.any_eq_true.mpr ⟨p, hp, ?_⟩
      simp only [Bool.and_eq_true, decide_eq_true_eq]
      exact ⟨⟨h1, h2⟩, h3⟩
  · intro h p hp
    unfold check_collision at hp
    rw [h] at hp
    simp only [if_true] at hp
    unfold set_all_retry at hp
    rcases List.mem_map.mp hp with ⟨q, _, rfl⟩
    rfl

/-- Witness for C1 at a concrete registry holding one overlapping frame. -/
theorem c1_witness :
    has_collision [(fidB, create_frame 1 2)] (create_frame 0 2) fidA = true ∧
      ∀ p ∈ check_collision [(fidB, create_frame 1 2)] (create_frame 0 2) fidA,
        p.2.retry = true := by
  have h := c1_collision_iff_overlap_and_broadcast [(fidB, create_frame 1 2)]
    (create_frame 0 2) fidA
  have hcol : has_collision [(fidB, create_frame 1 2)] (create_frame 0 2) fidA = true :=
    h.1.mpr ⟨(fidB, create_frame 1 2), by decide, by decide, by decide, by decide⟩
  exact ⟨hcol, h.2 hcol⟩

/-- Claim C10: the collision check never inserts or removes a registry
binding and never touches the interval data of any frame; the only state it
may change is the retry flags, and only from false to true. -/
theorem c10_check_collision_frame_effect :
    ∀ (reg : List (FrameId × Frame)) (frame : Frame) (frame_id : FrameId),
      ((check_collision reg frame frame_id).map Prod.fst = reg.map Prod.fst) ∧
      ∀ n p q, reg.get? n = some p →
          (check_collision reg frame frame_id).get? n = some q →
          q.1 = p.1 ∧ q.2.start = p.2.start ∧ q.2.end_ = p.2.end_ ∧
            q.2.frame_time = p.2.frame_time ∧
            (q.2.retry = p.2.retry ∨ (p.2.retry = false ∧ q.2.retry = true)) := by
  intro reg frame frame_id
  unfold check_collision
  by_cases h : has_collision reg frame frame_id = true
  · rw [h]
    simp only [if_true]
    constructor
    · unfold set_all_retry
      rw [List.map_map]
      rfl
    · intro n p q hp hq
      unfold set_all_retry at hq
      rw [List.get?_map, hp] at hq
      cases hq
      cases hb : p.2.retry
      · exact ⟨rfl, rfl, rfl, rfl, Or.inr ⟨rfl, rfl⟩⟩
      · exact ⟨rfl, rfl, rfl, rfl, Or.inl rfl⟩
  · rw [Bool.not_eq_true] at h
    simp only [h, Bool.false_eq_true, if_false]
    constructor
    · trivial
    · intro n p q hp hq
      rw [hp] at hq
      cases hq
      exact ⟨rfl, rfl, rfl, rfl, Or.inl rfl⟩

/-- Witness for C10 at a concrete one-entry registry. -/
theorem c10_witness :
    ([(fidB, create_frame 1 2)].get? 0 = some (fidB, create_frame 1 2)) ∧
      ∃ q, (check_collision [(fidB, create_frame 1 2)] (create_frame 0 2) fidA).get? 0 =
          some q ∧ q.1 = fidB ∧
          (q.2.retry = (create_frame 1 2).retry ∨
            ((create_frame 1 2).retry = false ∧ q.2.retry = true)) := by
  refine ⟨rfl, ⟨(fidB, { start := 1, end_ := 3, frame_time := 2, retry := true }), rfl, ?_, ?_⟩⟩
  · rfl
  · have h := (c10_check_collision_frame_effect [(fidB, create_frame 1 2)]
      (create_frame 0 2) fidA).2 0 (fidB, create_frame 1 2)
      (fidB, { start := 1, end_ := 3, frame_time := 2, retry := true }) rfl rfl
    exact h.2.2.2.2

/-! ### Helper lemmas about the registry association list -/

theorem get?_some_lt {α : Type} {l : List α} {n : Nat} {x : α}
    (h : l.get? n = some x) : n < l.length := by
  by_contra hlt
  rw [List.get?_eq_none.mpr (Nat.le_of_not_lt hlt)] at h
  cases h

theorem findId_eraseId_ne (l : List (FrameId × Frame)) (i jj : FrameId)
    (h : i ≠ jj) : findId (eraseId l jj) i = findId l i := by
  induction l with
  | nil => rfl
  | cons p rest ih =>
      by_cases hp : p.1 = jj
      · rw [eraseId, if_pos hp, findId, if_neg (by rw [hp]; exact fun hh => h hh.symm)]
      · rw [eraseId, if_neg hp, findId, findId]
        by_cases hpi : p.1 = i
        · rw [if_pos hpi, if_pos hpi]
        · rw [if_neg hpi, if_neg hpi, ih]

theorem findId_set_all_retry (l : List (FrameId × Frame)) (i : FrameId) :
    findId (set_all_retry l) i = (findId l i).map fun f => { f with retry := true } := by
  induction l with
  | nil => rfl
  | cons p rest ih =>
      unfold set_all_retry at ih ⊢
      rw [List.map_cons, findId, findId]
      by_cases hpi : p.1 = i
      · rw [if_pos hpi, if_pos hpi]
        rfl
      · rw [if_neg hpi, if_neg hpi, ih]

theorem findId_mem {l : List (FrameId × Frame)} {i : FrameId} {f : Frame}
    (h : findId l i = some f) : (i, f) ∈ l := by
  induction l with
  | nil => cases h
  | cons p rest ih =>
      rw [findId] at h
      by_cases hpi : p.1 = i
      · rw [if_pos hpi] at h
        cases h
        subst hpi
        exact List.mem_cons.mpr (Or.inl Prod.mk.eta)
      · rw [if_neg hpi] at h
        exact List.mem_cons_of_mem _ (ih h)

theorem mem_eraseId {l : List (FrameId × Frame)} {i : FrameId}
    {p : FrameId × Frame} (h : p ∈ eraseId l i) : p ∈ l := by
  induction l with
  | nil => cases h
  | cons q rest ih =>
      rw [eraseId] at h
      by_cases hq : q.1 = i
      · rw [if_pos hq] at h
        exact List.mem_cons_of_mem _ h
      · rw [if_neg hq] at h
        rcases List.mem_cons.mp h with h1 | h2
        · exact h1 ▸ List.mem_cons_self _ _
        · exact List.mem_cons_of_mem _ (ih h2)

/-! ### Helper lemmas about the trace semantics -/

theorem stateAt_zero (tr : List Op) : stateAt tr 0 = chanInit := rfl

theorem stateAt_succ {tr : List Op} {n : Nat} {op : Op}
    (h : tr.get? n = some op) : stateAt tr (n + 1) = stepA (stateAt tr n) op := by
  unfold stateAt
  rw [List.take_succ, ← List.get?_eq_getElem?, h]
  rw [List.foldl_append]
  rfl

theorem stateAt_succ_none {tr : List Op} {n : Nat}
    (h : tr.get? n = none) : stateAt tr (n + 1) = stateAt tr n := by
  unfold stateAt
  rw [List.take_succ, ← List.get?_eq_getElem?, h]
  rw [show (none : Option Op).toList = [] from rfl, List.append_nil]

/-- Effect of one step on the binding of an identifier the operation does
not mention: either the binding is untouched, or the operation is a check
that detected a collision and broadcast the retry flag to every binding. -/
theorem findId_stepA_cases (st : ChanState) (op : Op) (fid : FrameId)
    (hop : usesId op fid = false) :
    findId (stepA st op).frames_in_transmit fid = findId st.frames_in_transmit fid ∨
    (∃ fid2 f2, op = Op.check fid2 ∧ findId st.frames_in_transmit fid2 = some f2 ∧
      has_collision st.frames_in_transmit f2 fid2 = true ∧
      findId (stepA st op).frames_in_transmit fid =
        (findId st.frames_in_transmit fid).map fun f => { f with retry := true }) := by
  cases op with
  | register fid2 s2 d2 =>
      left
      have hne : fid ≠ fid2 := by
        intro hh
        rw [usesId, hh, decide_eq_false_iff_not] at hop
        exact hop rfl
      show findId (add_frame_in_transmit _ _ _) fid = _
      rw [add_frame_in_transmit, findId, if_neg (fun hh => hne hh.symm),
        findId_eraseId_ne _ _ _ hne]
  | check fid2 =>
      have hne : fid ≠ fid2 := by
        intro hh
        rw [usesId, hh, decide_eq_false_iff_not] at hop
        exact hop rfl
      rw [stepA]
      cases hf2 : findId st.frames_in_transmit fid2 with
      | none => exact Or.inl rfl
      | some f2 =>
          by_cases hcol : has_collision st.frames_in_transmit f2 fid2 = true
          · right
            refine ⟨fid2, f2, rfl, hf2, hcol, ?_⟩
            show findId (remove_frame_in_transmit (check_collision _ _ _) _) fid = _
            rw [remove_frame_in_transmit, findId_eraseId_ne _ _ _ hne,
              check_collision, if_pos hcol, findId_set_all_retry]
          · left
            show findId (remove_frame_in_transmit (check_collision _ _ _) _) fid = _
            rw [remove_frame_in_transmit, findId_eraseId_ne _ _ _ hne,
              check_collision, if_neg hcol]

/-- During a broadcast, the binding of every other identifier has its retry
flag set. -/
theorem findId_stepA_broadcast (st : ChanState) (fid1 fid2 : FrameId)
    (f1 f2 : Frame) (hne : fid2 ≠ fid1)
    (h1 : findId st.frames_in_transmit fid1 = some f1)
    (hcol : has_collision st.frames_in_transmit f1 fid1 = true)
    (h2 : findId st.frames_in_transmit fid2 = some f2) :
    findId (stepA st (Op.check fid1)).frames_in_transmit fid2 =
      some { f2 with retry := true } := by
  rw [stepA]
  rw [h1]
  show findId (remove_frame_in_transmit (check_collision _ _ _) _) fid2 = _
  rw [remove_frame_in_transmit, findId_eraseId_ne _ _ _ hne, check_collision,
    if_pos hcol, findId_set_all_retry, h2]
  rfl

/-- The finished record written by a check step. -/
theorem stateAt_check {tr : List Op} {fid : FrameId} {j : Nat} {fr : Frame}
    (hj : tr.get? j = some (Op.check fid))
    (hfr : findId (stateAt tr j).frames_in_transmit fid = some fr) :
    (stateAt tr (j + 1)).finished =
      (fid,
        if has_collision (stateAt tr j).frames_in_transmit fr fid then
          { fr with retry := true }
        else fr) :: (stateAt tr j).finished := by
  rw [stateAt_succ hj, stepA, hfr]

theorem stepA_register (st : ChanState) (fid : FrameId) (s ft : Nat) :
    stepA st (Op.register fid s ft) =
      { st with
        frames_in_transmit :=
          add_frame_in_transmit st.frames_in_transmit (create_frame s ft) fid } := rfl

theorem stepA_check_none {st : ChanState} {fid : FrameId}
    (h : findId st.frames_in_transmit fid = none) : stepA st (Op.check fid) = st := by
  simp only [stepA, h]

theorem stepA_check_some {st : ChanState} {fid : FrameId} {f : Frame}
    (h : findId st.frames_in_transmit fid = some f) :
    stepA st (Op.check fid) =
      { frames_in_transmit :=
          remove_frame_in_transmit (check_collision st.frames_in_transmit f fid) fid,
        finished :=
          (fid,
            if has_collision st.frames_in_transmit f fid then { f with retry := true }
            else f) :: st.finished } := by
  simp only [stepA, h]

/-- Extraction of the identifier freedom of the operation at a position. -/
theorem opFree_usesId {tr : List Op} {fid : FrameId} {k : Nat} {op : Op}
    (hop : tr.get? k = some op) (h : opFreeOfId tr fid k = true) :
    usesId op fid = false := by
  unfold opFreeOfId at h
  simp only [hop] at h
  cases hu : usesId op fid
  · rfl
  · rw [hu] at h
    simp at h

/-- Between its registration and its check, the attempt keeps a binding in
the registry whose interval data is the one it was created with; only the
retry flag can vary. -/
theorem attempt_entry {tr : List Op} {fid : FrameId} {s d i j : Nat}
    (h : AttemptAt tr fid s d i j) :
    ∀ n, i + 1 ≤ n → n ≤ j →
      ∃ b, findId (stateAt tr n).frames_in_transmit fid =
        some { start := s, end_ := s + d, frame_time := d, retry := b } := by
  obtain ⟨hij, hreg, hchk, hfree⟩ := h
  intro n hn
  induction n, hn using Nat.le_induction with
  | base =>
      intro _
      refine ⟨false, ?_⟩
      rw [stateAt_succ hreg, stepA_register]
      show findId (add_frame_in_transmit _ _ _) fid = _
      rw [add_frame_in_transmit, findId, if_pos rfl]
      rfl
  | succ n hn ih =>
      intro hn1
      have hnj : n < j := Nat.lt_of_succ_le hn1
      obtain ⟨b, hb⟩ := ih (Nat.le_of_lt hnj)
      have hjlen : j < tr.length := get?_some_lt hchk
      have hnlen : n < tr.length := Nat.lt_trans hnj hjlen
      obtain ⟨op, hop⟩ : ∃ op, tr.get? n = some op := by
        cases hgo : tr.get? n with
        | none => exact absurd (List.get?_eq_none.mp hgo) (Nat.not_le_of_lt hnlen)
        | some op => exact ⟨op, rfl⟩
      have hfree2 : usesId op fid = false :=
        opFree_usesId hop (hfree n hnj (Nat.lt_of_succ_le hn))
      rcases findId_stepA_cases (stateAt tr n) op fid hfree2 with hsame |
        ⟨fid2, f2, _, _, _, hmap⟩
      · exact ⟨b, by rw [stateAt_succ hop, hsame, hb]⟩
      · refine ⟨true, ?_⟩
        rw [stateAt_succ hop, hmap, hb]
        rfl

/-- Once the retry flag of the binding of a pending attempt is set, it stays
set until the attempt checks out. -/
theorem attempt_flag_true {tr : List Op} {fid : FrameId} {s d i j : Nat}
    (h : AttemptAt tr fid s d i j) :
    ∀ n, i + 1 ≤ n → n ≤ j →
      findId (stateAt tr n).frames_in_transmit fid =
        some { start := s, end_ := s + d, frame_time := d, retry := true } →
      ∀ m, n ≤ m → m ≤ j →
        findId (stateAt tr m).frames_in_transmit fid =
          some { start := s, end_ := s + d, frame_time := d, retry := true } := by
  obtain ⟨hij, hreg, hchk, hfree⟩ := h
  intro n hn hnj htrue m hm
  induction m, hm using Nat.le_induction with
  | base => intro _; exact htrue
  | succ m hm ih =>
      intro hm1
      have hmj : m < j := Nat.lt_of_succ_le hm1
      have hprev := ih (Nat.le_of_lt hmj)
      have hjlen : j < tr.length := get?_some_lt hchk
      have hmlen : m < tr.length := Nat.lt_trans hmj hjlen
      obtain ⟨op, hop⟩ : ∃ op, tr.get? m = some op := by
        cases hgo : tr.get? m with
        | none => exact absurd (List.get?_eq_none.mp hgo) (Nat.not_le_of_lt hmlen)
        | some op => exact ⟨op, rfl⟩
      have hfree2 : usesId op fid = false :=
        opFree_usesId hop (hfree m hmj (Nat.lt_of_lt_of_le (Nat.lt_of_succ_le hn) hm))
      rcases findId_stepA_cases (stateAt tr m) op fid hfree2 with hsame |
        ⟨fid2, f2, _, _, _, hmap⟩
      · rw [stateAt_succ hop, hsame, hprev]
      · rw [stateAt_succ hop, hmap, hprev]
        rfl

/-- Every binding of the registry stems from a register operation earlier in
the trace carrying exactly its interval data. -/
theorem entry_provenance (tr : List Op) :
    ∀ n p, p ∈ (stateAt tr n).frames_in_transmit →
      ∃ m, m < n ∧ tr.get? m = some (Op.register p.1 p.2.start p.2.frame_time) ∧
        p.2.end_ = p.2.start + p.2.frame_time := by
  intro n
  induction n with
  | zero =>
      intro p hp
      rw [stateAt_zero] at hp
      exact absurd hp (List.not_mem_nil p)
  | succ n ih =>
      intro p hp
      cases hgo : tr.get? n with
      | none =>
          rw [stateAt_succ_none hgo] at hp
          obtain ⟨m, hm, rest⟩ := ih p hp
          exact ⟨m, Nat.lt_succ_of_lt hm, rest⟩
      | some op =>
          rw [stateAt_succ hgo] at hp
          cases op with
          | register fid2 s2 ft2 =>
              rw [stepA_register] at hp
              simp only [add_frame_in_transmit] at hp
              rcases List.mem_cons.mp hp with hh | hh
              · subst hh
                exact ⟨n, Nat.lt_succ_self n, by rw [hgo]; rfl, rfl⟩
              · obtain ⟨m, hm, rest⟩ := ih p (mem_eraseId hh)
                exact ⟨m, Nat.lt_succ_of_lt hm, rest⟩
          | check fid2 =>
              cases hf : findId (stateAt tr n).frames_in_transmit fid2 with
              | none =>
                  rw [stepA_check_none hf] at hp
                  obtain ⟨m, hm, rest⟩ := ih p hp
                  exact ⟨m, Nat.lt_succ_of_lt hm, rest⟩
              | some f2 =>
                  rw [stepA_check_some hf] at hp
                  have hp2 : p ∈ check_collision
                      (stateAt tr n).frames_in_transmit f2 fid2 := by
                    exact mem_eraseId hp
                  rw [check_collision] at hp2
                  by_cases hcol :
                      has_collision (stateAt tr n).frames_in_transmit f2 fid2 = true
                  · rw [if_pos hcol, set_all_retry] at hp2
                    rcases List.mem_map.mp hp2 with ⟨q, hq, hqe⟩
                    obtain ⟨m, hm, hops, hend⟩ := ih q hq
                    subst hqe
                    exact ⟨m, Nat.lt_succ_of_lt hm, hops, hend⟩
                  · rw [Bool.not_eq_true] at hcol
                    rw [hcol] at hp2
                    simp only [Bool.false_eq_true, if_false] at hp2
                    obtain ⟨m, hm, rest⟩ := ih p hp2
                    exact ⟨m, Nat.lt_succ_of_lt hm, rest⟩

/-! ### Extraction lemmas for well-formed timed traces -/

theorem regMatchB_spec {tr : List Op} {tau : Nat → Nat} {fid : FrameId} {i k : Nat}
    (h : regMatchB tr tau fid i k = true) :
    ∃ s d, tr.get? i = some (Op.register fid s d) ∧ tau k = s + d ∧
      ∀ m, m < k → i < m → opFreeOfId tr fid m = true := by
  unfold regMatchB at h
  cases hgo : tr.get? i with
  | none =>
      rw [hgo] at h
      cases h
  | some op =>
      cases op with
      | register fid2 s d =>
          rw [hgo] at h
          simp only [Bool.and_eq_true, decide_eq_true_eq] at h
          obtain ⟨⟨h1, h2⟩, h3⟩ := h
          subst h1
          exact ⟨s, d, rfl, h2, h3⟩
      | check fid2 =>
          rw [hgo] at h
          cases h

theorem chkMatch_spec {tr : List Op} {tau : Nat → Nat} {k : Nat} {fid : FrameId}
    (hwf : checksMatched tr tau) (hk : tr.get? k = some (Op.check fid)) :
    ∃ i s d, i < k ∧ tr.get? i = some (Op.register fid s d) ∧ tau k = s + d ∧
      ∀ m, m < k → i < m → opFreeOfId tr fid m = true := by
  have h := hwf k (get?_some_lt hk)
  unfold chkMatchB at h
  rw [hk] at h
  rw [decide_eq_true_eq] at h
  obtain ⟨i, hik, hm⟩ := h
  obtain ⟨s, d, h1, h2, h3⟩ := regMatchB_spec hm
  exact ⟨i, s, d, hik, h1, h2, h3⟩

theorem regTime_spec {tr : List Op} {tau : Nat → Nat} {i : Nat} {fid : FrameId}
    {s d : Nat} (hwf : regTimesOk tr tau)
    (hi : tr.get? i = some (Op.register fid s d)) : tau i = s ∧ 0 < d := by
  have h := hwf i (get?_some_lt hi)
  unfold regTimeOkB at h
  rw [hi] at h
  rw [Bool.and_eq_true, decide_eq_true_eq, decide_eq_true_eq] at h
  exact h

theorem eqTime_spec {tr : List Op} {tau : Nat → Nat} {k l : Nat} {fid fid2 : FrameId}
    {s d : Nat} (hwf : eqTimeOrder tr tau)
    (hk : tr.get? k = some (Op.check fid))
    (hl : tr.get? l = some (Op.register fid2 s d)) (he : tau k = tau l) : k < l := by
  have h := hwf k (get?_some_lt hk) l (get?_some_lt hl)
  unfold eqTimeOkB at h
  rw [hk, hl, he] at h
  simp at h
  exact h

/-- The check of an attempt happens at the end time of its frame: the
matching register of the check is unique and is the register of the attempt. -/
theorem check_time {tr : List Op} {tau : Nat → Nat} {fid : FrameId} {s d i j : Nat}
    (hchkM : checksMatched tr tau) (h : AttemptAt tr fid s d i j) :
    tau j = s + d := by
  obtain ⟨hij, hreg, hchk, hfree⟩ := h
  obtain ⟨i0, s0, d0, hi0k, hreg0, htau, hfree0⟩ := chkMatch_spec hchkM hchk
  rcases Nat.lt_trichotomy i0 i with hlt | heq | hgt
  · exfalso
    have hfr := opFree_usesId hreg (hfree0 i hij hlt)
    rw [usesId, decide_eq_false_iff_not] at hfr
    exact hfr rfl
  · subst heq
    rw [hreg] at hreg0
    injection hreg0 with hh
    injection hh with _ hs hd
    rw [htau, hs, hd]
  · exfalso
    have hfr := opFree_usesId hreg0 (hfree i0 hi0k hgt)
    rw [usesId, decide_eq_false_iff_not] at hfr
    exact hfr rfl

/-! ### Overlapping concurrent attempts are both flagged -/

/-- Ordered case: if the check of the first attempt comes first, the scan at
that check sees the frame of the second attempt and the broadcast flags
both. -/
theorem both_flagged_ordered {tr : List Op} {fid1 fid2 : FrameId}
    {s1 d1 s2 d2 i1 j1 i2 j2 : Nat}
    (a1 : AttemptAt tr fid1 s1 d1 i1 j1) (a2 : AttemptAt tr fid2 s2 d2 i2 j2)
    (hne : fid1 ≠ fid2) (hint1 : i2 < j1) (hord : j1 < j2)
    (hov1 : s1 < s2 + d2) (hov2 : s2 < s1 + d1) :
    (stateAt tr (j1 + 1)).finished.head? =
      some (fid1, { start := s1, end_ := s1 + d1, frame_time := d1, retry := true }) ∧
    (stateAt tr (j2 + 1)).finished.head? =
      some (fid2, { start := s2, end_ := s2 + d2, frame_time := d2, retry := true }) := by
  obtain ⟨b1, hb1⟩ := attempt_entry a1 j1 (Nat.succ_le_of_lt a1.1) (le_refl j1)
  obtain ⟨b2, hb2⟩ := attempt_entry a2 j1 (Nat.succ_le_of_lt hint1) (Nat.le_of_lt hord)
  have hcol : has_collision (stateAt tr j1).frames_in_transmit
      { start := s1, end_ := s1 + d1, frame_time := d1, retry := b1 } fid1 = true := by
    refine List.any_eq_true.mpr
      ⟨(fid2, { start := s2, end_ := s2 + d2, frame_time := d2, retry := b2 }),
        findId_mem hb2, ?_⟩
    simp only [Bool.and_eq_true, decide_eq_true_eq]
    exact ⟨⟨fun hh => hne hh.symm, hov1⟩, hov2⟩
  constructor
  · have hfin := stateAt_check a1.2.2.1 hb1
    rw [hfin, if_pos hcol]
    rfl
  · have h2true : findId (stateAt tr (j1 + 1)).frames_in_transmit fid2 =
        some { start := s2, end_ := s2 + d2, frame_time := d2, retry := true } := by
      rw [stateAt_succ a1.2.2.1]
      exact findId_stepA_broadcast (stateAt tr j1) fid1 fid2 _ _
        (fun hh => hne hh.symm) hb1 hcol hb2
    have h2j2 := attempt_flag_true a2 (j1 + 1) (Nat.succ_le_succ (Nat.le_of_lt hint1))
      (Nat.succ_le_of_lt hord) h2true j2 (Nat.succ_le_of_lt hord) (le_refl j2)
    have hfin2 := stateAt_check a2.2.2.1 h2j2
    rw [hfin2]
    by_cases hc : has_collision (stateAt tr j2).frames_in_transmit
        { start := s2, end_ := s2 + d2, frame_time := d2, retry := true } fid2 = true
    · rw [if_pos hc]
      rfl
    · rw [if_neg hc]
      rfl

/-! ### An attempt overlapping no other registered frame is never flagged -/

/-- In a well-formed timed trace, the binding of an attempt whose interval
overlaps the interval of no other register operation keeps its retry flag
off for its whole life: any broadcast reaching it would come from a check
whose own frame, by the time bounds, overlaps the attempt. -/
theorem lone_attempt_entry_false {tr : List Op} {tau : Nat → Nat}
    (hwf : WFTrace tr tau) {fid : FrameId} {s d i j : Nat}
    (h : AttemptAt tr fid s d i j)
    (hnov : ∀ i2 fid2 s2 d2, i2 ≠ i → tr.get? i2 = some (Op.register fid2 s2 d2) →
      ¬(s2 < s + d ∧ s < s2 + d2)) :
    ∀ n, i + 1 ≤ n → n ≤ j →
      findId (stateAt tr n).frames_in_transmit fid =
        some { start := s, end_ := s + d, frame_time := d, retry := false } := by
  obtain ⟨hmono, hregT, hchkM, heqT⟩ := hwf
  obtain ⟨hij, hreg, hchk, hfree⟩ := h
  have htauj : tau j = s + d := check_time hchkM ⟨hij, hreg, hchk, hfree⟩
  obtain ⟨htaui, hd⟩ := regTime_spec hregT hreg
  have hjlen : j < tr.length := get?_some_lt hchk
  intro n hn
  induction n, hn using Nat.le_induction with
  | base =>
      intro _
      rw [stateAt_succ hreg, stepA_register]
      show findId (add_frame_in_transmit _ _ _) fid = _
      rw [add_frame_in_transmit, findId, if_pos rfl]
      rfl
  | succ n hn ih =>
      intro hn1
      have hnj : n < j := Nat.lt_of_succ_le hn1
      have hprev := ih (Nat.le_of_lt hnj)
      have hnlen : n < tr.length := Nat.lt_trans hnj hjlen
      obtain ⟨op, hop⟩ : ∃ op, tr.get? n = some op := by
        cases hgo : tr.get? n with
        | none => exact absurd (List.get?_eq_none.mp hgo) (Nat.not_le_of_lt hnlen)
        | some op => exact ⟨op, rfl⟩
      have hfree2 : usesId op fid = false :=
        opFree_usesId hop (hfree n hnj (Nat.lt_of_succ_le hn))
      rcases findId_stepA_cases (stateAt tr n) op fid hfree2 with hsame |
        ⟨fid2, f2, hopck, hf2, hcol, hmap⟩
      · rw [stateAt_succ hop, hsame, hprev]
      · exfalso
        subst hopck
        have hne : fid2 ≠ fid := by
          rw [usesId, decide_eq_false_iff_not] at hfree2
          exact hfree2
        obtain ⟨i2, s2, d2, hi2n, hreg2, htau2, _⟩ := chkMatch_spec hchkM hop
        obtain ⟨htaui2, hd2⟩ := regTime_spec hregT hreg2
        have hle : s ≤ tau n := by
          rw [← htaui]
          exact hmono n hnlen i (Nat.le_of_lt (Nat.lt_of_succ_le hn))
        have hlt : s < tau n := by
          cases Nat.lt_or_eq_of_le hle with
          | inl hh => exact hh
          | inr hh =>
              exfalso
              have hee : tau n = tau i := by
                rw [← hh, htaui]
              exact Nat.lt_asymm (Nat.lt_of_succ_le hn)
                (eqTime_spec heqT hop hreg hee)
        have hub : tau n ≤ s + d := by
          rw [← htauj]
          exact hmono j hjlen n (Nat.le_of_lt hnj)
        have hs2lt : s2 < s + d := Nat.lt_of_lt_of_le (htau2 ▸ Nat.lt_add_of_pos_right hd2) hub
        have hslt : s < s2 + d2 := htau2 ▸ hlt
        have hi2ne : i2 ≠ i := by
          intro hh
          subst hh
          rw [hreg] at hreg2
          injection hreg2 with hh2
          injection hh2 with hf _ _
          exact hne hf.symm
        exact hnov i2 fid2 s2 d2 hi2ne hreg2 ⟨hs2lt, hslt⟩

/-- A lone attempt also checks out with a clean scan: every frame the scan
could see stems from a register operation, which the no-overlap hypothesis
rules out. -/
theorem lone_attempt_finished_false {tr : List Op} {tau : Nat → Nat}
    (hwf : WFTrace tr tau) {fid : FrameId} {s d i j : Nat}
    (h : AttemptAt tr fid s d i j)
    (hnov : ∀ i2 fid2 s2 d2, i2 ≠ i → tr.get? i2 = some (Op.register fid2 s2 d2) →
      ¬(s2 < s + d ∧ s < s2 + d2)) :
    (stateAt tr (j + 1)).finished.head? =
      some (fid, { start := s, end_ := s + d, frame_time := d, retry := false }) := by
  have hentry := lone_attempt_entry_false hwf h hnov j (Nat.succ_le_of_lt h.1) (le_refl j)
  have hfin := stateAt_check h.2.2.1 hentry
  have hcolf : has_collision (stateAt tr j).frames_in_transmit
      { start := s, end_ := s + d, frame_time := d, retry := false } fid = false := by
    by_contra hcc
    rw [Bool.not_eq_false] at hcc
    rcases List.any_eq_true.mp hcc with ⟨p, hpmem, hcond⟩
    simp only [Bool.and_eq_true, decide_eq_true_eq] at hcond
    obtain ⟨⟨hpne, hp1⟩, hp2⟩ := hcond
    obtain ⟨m, hmj, hregm, hendm⟩ := entry_provenance tr j p hpmem
    have hmne : m ≠ i := by
      intro hh
      subst hh
      rw [h.2.1] at hregm
      injection hregm with hh2
      injection hh2 with hf _ _
      exact hpne hf.symm
    refine hnov m p.1 p.2.start p.2.frame_time hmne hregm ⟨hp2, ?_⟩
    rw [← hendm]
    exact hp1
  rw [hfin, hcolf]
  simp only [Bool.false_eq_true, if_false]
  rfl

/-- Claim C2: in a well-formed run, every pair of simultaneously registered
frames with strictly intersecting intervals ends both attempts with the
retry flag set, and a registered frame whose interval intersects the
interval of no other registered frame ends its attempt with the retry flag
off. -/
theorem c2_overlap_pairs_flagged_and_lone_unflagged
    (tr : List Op) (tau : Nat → Nat) (hwf : WFTrace tr tau) :
    (∀ fid1 fid2 s1 d1 s2 d2 i1 j1 i2 j2,
        AttemptAt tr fid1 s1 d1 i1 j1 → AttemptAt tr fid2 s2 d2 i2 j2 →
        fid1 ≠ fid2 → i2 < j1 → i1 < j2 →
        s1 < s2 + d2 → s2 < s1 + d1 →
        (stateAt tr (j1 + 1)).finished.head? =
          some (fid1, { start := s1, end_ := s1 + d1, frame_time := d1, retry := true }) ∧
        (stateAt tr (j2 + 1)).finished.head? =
          some (fid2, { start := s2, end_ := s2 + d2, frame_time := d2, retry := true })) ∧
    (∀ fid s d i j,
        AttemptAt tr fid s d i j →
        (∀ i2 fid2 s2 d2, i2 ≠ i → tr.get? i2 = some (Op.register fid2 s2 d2) →
          ¬(s2 < s + d ∧ s < s2 + d2)) →
        (stateAt tr (j + 1)).finished.head? =
          some (fid, { start := s, end_ := s + d, frame_time := d, retry := false })) := by
  constructor
  · intro fid1 fid2 s1 d1 s2 d2 i1 j1 i2 j2 a1 a2 hne hint1 hint2 hov1 hov2
    have hjj : j1 ≠ j2 := by
      intro hh
      subst hh
      have h2 := a2.2.2.1
      rw [a1.2.2.1] at h2
      injection h2 with hh2
      injection hh2 with hf
      exact hne hf
    rcases Nat.lt_or_ge j1 j2 with hord | hge
    · exact both_flagged_ordered a1 a2 hne hint1 hord hov1 hov2
    · have hord2 : j2 < j1 :=
        Nat.lt_of_le_of_ne hge fun hh => hjj hh.symm
      have hres := both_flagged_ordered a2 a1 (fun hh => hne hh.symm) hint2 hord2 hov2 hov1
      exact ⟨hres.2, hres.1⟩
  · intro fid s d i j h hnov
    exact lone_attempt_finished_false hwf h hnov

/-- Witness for C2 on a concrete well-formed trace of two overlapping
attempts. -/
theorem c2_witness :
    (stateAt exTrace 3).finished.head? =
      some (fidA, { start := 0, end_ := 2, frame_time := 2, retry := true }) ∧
    (stateAt exTrace 4).finished.head? =
      some (fidB, { start := 1, end_ := 3, frame_time := 2, retry := true }) := by
  have h := (c2_overlap_pairs_flagged_and_lone_unflagged exTrace exTau (by decide)).1
    fidA fidB 0 2 1 2 0 2 1 3 (by decide) (by decide) (by decide) (by decide)
    (by decide) (by decide) (by decide)
  exact h

/-! ### The registry survives the replication boundary -/

/-- Running operations that never mention an identifier preserves its
binding up to the retry flag. -/
theorem findId_run_free {ops : List Op} :
    ∀ (st : ChanState) (fid : FrameId) (fr : Frame),
      findId st.frames_in_transmit fid = some fr →
      (∀ op ∈ ops, usesId op fid = false) →
      ∃ fr2, findId (ops.foldl stepA st).frames_in_transmit fid = some fr2 ∧
        fr2.start = fr.start ∧ fr2.end_ = fr.end_ ∧ fr2.frame_time = fr.frame_time := by
  induction ops with
  | nil => exact fun st fid fr hf _ => ⟨fr, hf, rfl, rfl, rfl⟩
  | cons op rest ih =>
      intro st fid fr hf hfree
      have hop : usesId op fid = false := hfree op (List.mem_cons_self _ _)
      have hrest : ∀ op2 ∈ rest, usesId op2 fid = false :=
        fun op2 h2 => hfree op2 (List.mem_cons_of_mem _ h2)
      rcases findId_stepA_cases st op fid hop with hsame | ⟨_, _, _, _, _, hmap⟩
      · obtain ⟨fr2, hfind, h1, h2, h3⟩ := ih (stepA st op) fid fr (by rw [hsame, hf]) hrest
        exact ⟨fr2, hfind, h1, h2, h3⟩
      · obtain ⟨fr2, hfind, h1, h2, h3⟩ :=
          ih (stepA st op) fid { fr with retry := true } (by rw [hmap, hf]; rfl) hrest
        exact ⟨fr2, hfind, h1, h2, h3⟩

/-- Counterexample to claim C4: a frame registered near the horizon of the
first replication, whose frame timeout lies beyond the horizon and is
abandoned, is still in the class-level registry when the second replication
starts, so the registry of the second replication does not start empty. -/
theorem c4_counterexample :
    (replication_start_state exReps 1).frames_in_transmit ≠ [] := by
  decide

/-- Claim C4 as amended: only the very first replication starts with an
empty registry; each later replication starts with exactly the registry
state the previous replication left behind (the class attribute is shared),
and a frame registered in an earlier replication and never checked or
re-registered afterwards is still registered, with its interval data
intact, when a later replication starts. -/
theorem c4_registry_shared_across_replications :
    (∀ reps : List (List Op), (replication_start_state reps 0).frames_in_transmit = []) ∧
    (∀ (reps : List (List Op)) (n : Nat),
        replication_start_state reps (n + 1) =
          run_replication (replication_start_state reps n) (reps.getD n [])) ∧
    (∀ (reps : List (List Op)) (n : Nat) (fid : FrameId) (s d : Nat)
        (pre post : List Op),
        (reps.take n).flatten = pre ++ Op.register fid s d :: post →
        (∀ op ∈ post, usesId op fid = false) →
        ∃ b, findId (replication_start_state reps n).frames_in_transmit fid =
          some { start := s, end_ := s + d, frame_time := d, retry := b }) := by
  refine ⟨fun reps => rfl, ?_, ?_⟩
  · intro reps n
    unfold replication_start_state run_replication
    rw [List.take_succ, List.flatten_append, List.foldl_append,
      List.getD_eq_getElem?_getD]
    cases hg : reps[n]? with
    | none => simp
    | some ops => simp
  · intro reps n fid s d pre post hdec hfree
    unfold replication_start_state
    rw [hdec, List.foldl_append]
    have hreg : findId
        (stepA (List.foldl stepA chanInit pre) (Op.register fid s d)).frames_in_transmit
          fid = some (create_frame s d) := by
      rw [stepA_register]
      show findId (add_frame_in_transmit _ _ _) fid = _
      rw [add_frame_in_transmit, findId, if_pos rfl]
    obtain ⟨fr2, hfind, h1, h2, h3⟩ :=
      findId_run_free (stepA (List.foldl stepA chanInit pre) (Op.register fid s d))
        fid (create_frame s d) hreg hfree
    rw [show (create_frame s d).start = s from rfl] at h1
    rw [show (create_frame s d).end_ = s + d from rfl] at h2
    rw [show (create_frame s d).frame_time = d from rfl] at h3
    refine ⟨fr2.retry, ?_⟩
    have hfr2 : fr2 = { start := s, end_ := s + d, frame_time := d, retry := fr2.retry } := by
      obtain ⟨fs, fe, ff, fb⟩ := fr2
      dsimp only at h1 h2 h3 ⊢
      rw [h1, h2, h3]
    rw [List.foldl_cons, hfind, ← hfr2]

/-- Witness for the amended C4 on the concrete two-replication input. -/
theorem c4_witness :
    (replication_start_state exReps 0).frames_in_transmit = [] ∧
    ∃ b, findId (replication_start_state exReps 2).frames_in_transmit fidA =
      some { start := 9999, end_ := 9999 + 20, frame_time := 20, retry := b } := by
  refine ⟨c4_registry_shared_across_replications.1 exReps,
    c4_registry_shared_across_replications.2.2 exReps 2 fidA 9999 20 [] [] (by decide)
      ?_⟩
  intro op hop
  cases hop

/-! ### Station counter invariants -/

theorem retryStates_counts :
    ∀ (k : Nat) (s : StationState), ∀ x ∈ retryStates s k,
      x.nt = s.nt ∧ x.num_initial_transmits = s.num_initial_transmits := by
  intro k
  induction k with
  | zero =>
      intro s x hx
      cases hx
  | succ k ih =>
      intro s x hx
      simp only [retryStates] at hx
      rcases List.mem_cons.mp hx with hh | hh
      · subst hh
        exact ⟨rfl, rfl⟩
      · exact ih { s with num_retries := s.num_retries + 1 } x hh

theorem c5_helper : ∀ (ms : List ServiceDesc) (s : StationState),
    s.nt ≤ s.num_initial_transmits →
    ∀ x ∈ runStates s ms, x.nt ≤ x.num_initial_transmits := by
  intro ms
  induction ms with
  | nil =>
      intro s hs x hx
      cases hx
  | cons m rest ih =>
      intro s hs x hx
      simp only [runStates] at hx
      rcases List.mem_append.mp hx with hx | hx
      · simp only [serviceStates] at hx
        rcases List.mem_cons.mp hx with hh | hx2
        · subst hh
          exact Nat.le_succ_of_le hs
        rcases List.mem_append.mp hx2 with hx3 | hx4
        · obtain ⟨h1, h2⟩ := retryStates_counts _ _ x hx3
          rw [h1, h2]
          exact Nat.le_succ_of_le hs
        · simp only [List.mem_cons, List.mem_singleton] at hx4
          rcases hx4 with hh | hh | hh | hh | hh
          · subst hh
            exact Nat.le_succ_of_le hs
          · subst hh
            exact Nat.succ_le_succ hs
          · subst hh
            exact Nat.succ_le_succ hs
          · subst hh
            unfold service_reset
            split
            · exact Nat.le_refl 0
            · exact Nat.succ_le_succ hs
          · cases hh
      · refine ih (wait_for_service_end s m) ?_ x hx
        unfold wait_for_service_end service_reset
        split
        · exact Nat.le_refl 0
        · exact Nat.succ_le_succ hs

/-- Claim C5: at every point of a station run, the cumulative successful
transmission count stays at or below the initial transmission attempt count,
through the transient reset included. -/
theorem c5_nt_le_initial_transmits :
    ∀ (ms : List ServiceDesc) (x : StationState),
      x ∈ runStates station_init ms → x.nt ≤ x.num_initial_transmits :=
  fun ms x hx => c5_helper ms station_init (Nat.le_refl 0) x hx

/-- Witness for C5 at a concrete one-service run. -/
theorem c5_witness :
    ({ station_init with num_initial_transmits := 1 } : StationState).nt ≤
      ({ station_init with num_initial_transmits := 1 } : StationState).num_initial_transmits :=
  c5_nt_le_initial_transmits [exService] _ (by decide)

/-! ### The transient reset fires at most once, never before the cutoff -/

theorem runResets_spec : ∀ (ms : List ServiceDesc) (s : StationState),
    (s.initial_reset_completed = true → runResets s ms = []) ∧
    (s.initial_reset_completed = false →
      runResets s ms =
        match ms.find? (fun m => decide (TRANSIENT_TIME ≤ m.complete_at)) with
        | some m => [m.complete_at]
        | none => []) := by
  intro ms
  induction ms with
  | nil =>
      intro s
      exact ⟨fun _ => rfl, fun _ => rfl⟩
  | cons m rest ih =>
      intro s
      constructor
      · intro hs
        have hend : (wait_for_service_end s m).initial_reset_completed = true := by
          unfold wait_for_service_end service_reset
          simp [service_st, service_nt, transmit_counters_success,
            transmit_counters_retries, transmit_counters_start, hs]
        simp only [runResets]
        rw [(ih (wait_for_service_end s m)).1 hend]
        simp [service_resets, hs]
      · intro hs
        by_cases hc : TRANSIENT_TIME ≤ m.complete_at
        · have hsr : service_resets s m = [m.complete_at] := by
            simp [service_resets, hs, hc]
          have hend : (wait_for_service_end s m).initial_reset_completed = true := by
            unfold wait_for_service_end service_reset
            simp [service_st, service_nt, transmit_counters_success,
              transmit_counters_retries, transmit_counters_start, hs, hc,
              reset_statistical_counters]
          simp only [runResets]
          rw [hsr, (ih (wait_for_service_end s m)).1 hend]
          simp [List.find?, hc]
        · have hsr : service_resets s m = [] := by
            simp [service_resets, hs, hc]
          have hend : (wait_for_service_end s m).initial_reset_completed = false := by
            unfold wait_for_service_end service_reset
            simp [service_st, service_nt, transmit_counters_success,
              transmit_counters_retries, transmit_counters_start, hs, hc]
          simp only [runResets]
          rw [hsr, (ih (wait_for_service_end s m)).2 hend]
          simp [List.find?, hc]

/-- Counterexample to claim C7 as stated: in a run whose only service
completes before the transient cutoff, the statistical counters are never
zeroed, so they are not zeroed exactly once. -/
theorem c7_counterexample : (runResets station_init [exService]).length ≠ 1 := by
  decide

/-- Claim C7 as amended: the statistical counters of a station are zeroed at
most once per run; every zeroing happens at a virtual time at or after the
transient cutoff, never before; and the zeroing happens exactly once in any
run in which some service completes at or after the cutoff. -/
theorem c7_reset_at_most_once_at_or_after_cutoff :
    ∀ ms : List ServiceDesc,
      (runResets station_init ms).length ≤ 1 ∧
      (∀ t ∈ runResets station_init ms, TRANSIENT_TIME ≤ t) ∧
      ((∃ m ∈ ms, TRANSIENT_TIME ≤ m.complete_at) →
        (runResets station_init ms).length = 1) := by
  intro ms
  have h := (runResets_spec ms station_init).2 rfl
  refine ⟨?_, ?_, ?_⟩
  · rw [h]
    cases hf : ms.find? (fun m => decide (TRANSIENT_TIME ≤ m.complete_at)) with
    | none => exact Nat.zero_le 1
    | some m => exact Nat.le_refl 1
  · intro t ht
    rw [h] at ht
    cases hf : ms.find? (fun m => decide (TRANSIENT_TIME ≤ m.complete_at)) with
    | none =>
        rw [hf] at ht
        cases ht
    | some m =>
        rw [hf] at ht
        have hp := List.find?_some hf
        rw [decide_eq_true_eq] at hp
        rcases List.mem_singleton.mp ht with rfl
        exact hp
  · rintro ⟨m, hm, hmc⟩
    rw [h]
    cases hf : ms.find? (fun m => decide (TRANSIENT_TIME ≤ m.complete_at)) with
    | none =>
        exfalso
        have := List.find?_eq_none.mp hf m hm
        rw [decide_eq_true_eq] at this
        exact this hmc
    | some m2 => rfl

/-- Witness for the amended C7 on a run with one early and one late
service. -/
theorem c7_witness :
    (runResets station_init [exService, exServiceLate]).length = 1 ∧
    ∀ t ∈ runResets station_init [exService, exServiceLate], TRANSIENT_TIME ≤ t := by
  have h := c7_reset_at_most_once_at_or_after_cutoff [exService, exServiceLate]
  exact ⟨h.2.2 ⟨exServiceLate, by decide, by decide⟩, h.2.1⟩

/-! ### One frame time per message, one initial transmit per message -/

theorem transmit_attempts_frame_time :
    ∀ (ft : Nat) (nows : List Nat) (outcomes : List Bool),
      ∀ fr ∈ transmit_attempts ft nows outcomes, fr.frame_time = ft := by
  intro ft nows outcomes
  induction outcomes generalizing nows with
  | nil =>
      intro fr h
      rw [show transmit_attempts ft nows [] = [] from by cases nows <;> rfl] at h
      cases h
  | cons b obs ih =>
      intro fr h
      cases nows with
      | nil =>
          rw [show transmit_attempts ft [] (b :: obs) = [] from rfl] at h
          cases h
      | cons t ts =>
          simp only [transmit_attempts] at h
          rcases List.mem_cons.mp h with hh | hh
          · subst hh
            rfl
          · cases b with
            | true =>
                rw [if_pos rfl] at hh
                exact ih ts fr hh
            | false =>
                rw [if_neg (by simp)] at hh
                cases hh

/-- Claim C8: for every message, the frame duration is drawn exactly once,
before the first attempt, every attempt of the message carries that same
duration, and the initial transmission attempt counter is incremented
exactly once per message, however many retries happen. -/
theorem c8_one_duration_one_initial_transmit :
    ∀ (ftDraws nows : List Nat) (outcomes : List Bool) (ft : Nat),
      generate_frame_time ftDraws = some ft →
      ∃ r atts, transmit ftDraws nows outcomes = some (1, r, atts) ∧
        ∀ fr ∈ atts, fr.frame_time = ft := by
  intro ftDraws nows outcomes ft hgen
  refine ⟨retries_until_success outcomes,
    transmit_attempts ft nows outcomes, ?_, ?_⟩
  · unfold transmit
    rw [hgen]
  · exact transmit_attempts_frame_time ft nows outcomes

/-- Witness for C8: a collided first attempt and a successful retry, both
carrying the single drawn duration. -/
theorem c8_witness :
    generate_frame_time [0, 3] = some 3 ∧
    ∃ r atts, transmit [0, 3] [5, 9] [true, false] = some (1, r, atts) ∧
      ∀ fr ∈ atts, fr.frame_time = 3 :=
  ⟨rfl, c8_one_duration_one_initial_transmit [0, 3] [5, 9] [true, false] 3 rfl⟩

/-! ### The division by zero in the system-wide mean retries -/

/-- Claim C3 is violated by the code: when every station ends the
replication with a zero initial transmission attempt count, the system-wide
report divides by zero at aloha.py line 237 (the guard that protects the
mean transmit time at lines 230-235 and the per-station mean retries at
line 81 is missing there), so the report raises instead of reporting a
default of zero. -/
theorem c3_zero_transmits_raises_division_error :
    generate_report_single_replication (List.replicate NUM_STATIONS station_init) =
      Except.error ("ZeroDivisionError") := by
  rfl

/-! ### Total length of pairwise non-intersecting intervals in a window -/

theorem sum_snd_le_of_sorted :
    ∀ (l : List (Nat × Nat)) (L R : Nat),
      List.Pairwise (fun a b : Nat × Nat => a.1 ≤ b.1) l →
      (∀ p ∈ l, 0 < p.2 ∧ L ≤ p.1 ∧ p.1 + p.2 ≤ R) →
      List.Pairwise (fun a b => ¬ intervalsOverlap a b) l →
      (l.map Prod.snd).sum ≤ R - L := by
  intro l
  induction l with
  | nil =>
      intro L R _ _ _
      simp
  | cons p rest ih =>
      intro L R hsort hb hd
      have hple := (List.pairwise_cons.mp hsort).1
      have hsort2 := (List.pairwise_cons.mp hsort).2
      have hdis := (List.pairwise_cons.mp hd).1
      have hd2 := (List.pairwise_cons.mp hd).2
      have hbp := hb p (List.mem_cons_self _ _)
      have hb2 : ∀ x ∈ rest, 0 < x.2 ∧ p.1 + p.2 ≤ x.1 ∧ x.1 + x.2 ≤ R := by
        intro x hx
        have hbx := hb x (List.mem_cons_of_mem _ hx)
        refine ⟨hbx.1, ?_, hbx.2.2⟩
        have hnd := hdis x hx
        unfold intervalsOverlap at hnd
        rcases Nat.lt_or_ge x.1 (p.1 + p.2) with hlt | hge
        · exact absurd
            ⟨Nat.lt_of_le_of_lt (hple x hx) (Nat.lt_add_of_pos_right hbx.1), hlt⟩ hnd
        · exact hge
      have hrest := ih (p.1 + p.2) R hsort2 hb2 hd2
      simp only [List.map_cons, List.sum_cons]
      have h1 : p.1 + p.2 ≤ R := hbp.2.2
      have h2 : L ≤ p.1 := hbp.2.1
      omega

theorem sum_snd_le_of_disjoint (l : List (Nat × Nat)) (L R : Nat)
    (hb : ∀ p ∈ l, 0 < p.2 ∧ L ≤ p.1 ∧ p.1 + p.2 ≤ R)
    (hd : List.Pairwise (fun a b => ¬ intervalsOverlap a b) l) :
    (l.map Prod.snd).sum ≤ R - L := by
  have hperm : (l.mergeSort fun a b => decide (a.1 ≤ b.1)).Perm l :=
    List.mergeSort_perm l _
  have hsorted := @List.sorted_mergeSort (Nat × Nat)
    (fun a b : Nat × Nat => decide (a.1 ≤ b.1))
    (by
      intro a b c h1 h2
      simp only [decide_eq_true_eq] at h1 h2 ⊢
      omega)
    (by
      intro a b
      simp only [Bool.or_eq_true, decide_eq_true_eq]
      omega)
    l
  have hsorted2 : List.Pairwise (fun a b : Nat × Nat => a.1 ≤ b.1)
      (l.mergeSort fun a b => decide (a.1 ≤ b.1)) :=
    hsorted.imp fun h => decide_eq_true_eq.mp h
  have hb2 : ∀ p ∈ l.mergeSort fun a b => decide (a.1 ≤ b.1),
      0 < p.2 ∧ L ≤ p.1 ∧ p.1 + p.2 ≤ R :=
    fun p hp => hb p (hperm.subset hp)
  have hd2 : List.Pairwise (fun a b => ¬ intervalsOverlap a b)
      (l.mergeSort fun a b => decide (a.1 ≤ b.1)) := by
    refine (List.Perm.pairwise_iff ?_ hperm).mpr hd
    intro x y hxy hyx
    exact hxy ⟨hyx.2, hyx.1⟩
  have hsum : ((l.mergeSort fun a b => decide (a.1 ≤ b.1)).map Prod.snd).sum =
      (l.map Prod.snd).sum :=
    (hperm.map Prod.snd).sum_eq
  rw [← hsum]
  exact sum_snd_le_of_sorted _ L R hsorted2 hb2 hd2

/-! ### Successful attempts occupy pairwise non-intersecting intervals -/

theorem successful_attempts_disjoint {tr : List Op} {tau : Nat → Nat}
    (hwf : WFTrace tr tau) {fid1 fid2 : FrameId} {s1 d1 s2 d2 i1 j1 i2 j2 : Nat}
    (a1 : AttemptAt tr fid1 s1 d1 i1 j1) (a2 : AttemptAt tr fid2 s2 d2 i2 j2)
    (hne : i1 ≠ i2)
    (hf1 : (stateAt tr (j1 + 1)).finished.head? =
      some (fid1, { start := s1, end_ := s1 + d1, frame_time := d1, retry := false }))
    (hf2 : (stateAt tr (j2 + 1)).finished.head? =
      some (fid2, { start := s2, end_ := s2 + d2, frame_time := d2, retry := false })) :
    ¬ intervalsOverlap (s1, d1) (s2, d2) := by
  intro hov
  obtain ⟨hov1, hov2⟩ := hov
  obtain ⟨hmono, hregT, hchkM, heqT⟩ := hwf
  have ht1 : tau j1 = s1 + d1 := check_time hchkM a1
  have ht2 : tau j2 = s2 + d2 := check_time hchkM a2
  have hr1 := regTime_spec hregT a1.2.1
  have hr2 := regTime_spec hregT a2.2.1
  have hj1len : j1 < tr.length := get?_some_lt a1.2.2.1
  have hj2len : j2 < tr.length := get?_some_lt a2.2.2.1
  have hint1 : i2 < j1 := by
    by_contra hcon
    have hle : tau j1 ≤ tau i2 :=
      hmono i2 (get?_some_lt a2.2.1) j1 (Nat.le_of_not_lt hcon)
    rw [ht1, hr2.1] at hle
    omega
  have hint2 : i1 < j2 := by
    by_contra hcon
    have hle : tau j2 ≤ tau i1 :=
      hmono i1 (get?_some_lt a1.2.1) j2 (Nat.le_of_not_lt hcon)
    rw [ht2, hr1.1] at hle
    omega
  by_cases hfe : fid1 = fid2
  · subst hfe
    rcases Nat.lt_or_ge i1 i2 with hlt | hge
    · have hfr := opFree_usesId a2.2.1 (a1.2.2.2 i2 hint1 hlt)
      rw [usesId, decide_eq_false_iff_not] at hfr
      exact hfr rfl
    · have hlt2 : i2 < i1 := Nat.lt_of_le_of_ne hge fun hh => hne hh.symm
      have hfr := opFree_usesId a1.2.1 (a2.2.2.2 i1 hint2 hlt2)
      rw [usesId, decide_eq_false_iff_not] at hfr
      exact hfr rfl
  · have hjj : j1 ≠ j2 := by
      intro hh
      subst hh
      have h2 := a2.2.2.1
      rw [a1.2.2.1] at h2
      injection h2 with hh2
      injection hh2 with hf
      exact hfe hf
    rcases Nat.lt_or_ge j1 j2 with hord | hge
    · have hres := both_flagged_ordered a1 a2 hfe hint1 hord hov1 hov2
      rw [hres.1] at hf1
      simp at hf1
    · have hord2 : j2 < j1 := Nat.lt_of_le_of_ne hge fun hh => hjj hh.symm
      have hres := both_flagged_ordered a2 a1 (fun hh => hfe hh.symm) hint2 hord2
        hov2 hov1
      rw [hres.1] at hf2
      simp at hf2

/-- Counterexample to claim C6 as stated: in a replication where one
station succeeds once before the transient cutoff and never completes a
service afterwards, its counters are never reset, so its pre-cutoff busy
time is still counted at report time; if another station meanwhile resets
at an early post-cutoff completion and then fills the rest of the
steady-state window with successful transmission, the system-wide ratio of
total busy time to the steady-state duration exceeds 1.  The trace below is
well formed, both counted attempts finished successfully before the
horizon, and each station satisfies the reset dichotomy, yet the
system-wide utilization is (10 + 9973) / 9975 > 1. -/
theorem c6_counterexample :
    WFTrace exTrace3 exTau3 ∧
    (∀ a ∈ ([[cA], [cB]] : List (List CountedAttempt)).flatten, countedOk exTrace3 a) ∧
    (∀ L ∈ ([[cA], [cB]] : List (List CountedAttempt)),
      (∀ a ∈ L, TRANSIENT_TIME ≤ a.s) ∨ (∀ a ∈ L, a.s + a.d ≤ TRANSIENT_TIME)) ∧
    ¬ system_report_U (busyOf ([[cA], [cB]] : List (List CountedAttempt)).flatten) ≤ 1 := by
  refine ⟨by decide, by decide, by decide, ?_⟩
  norm_num [system_report_U, STEADY_STATE_TIME, TERMINATE_TIME, TRANSIENT_TIME,
    busyOf, cA, cB]

/-- Claim C6 as amended: the per-station utilization always lies in the
unit interval, and the system-wide utilization is nonnegative and lies in
the unit interval whenever every station had its transient reset fire (all
counted attempts start at or after the cutoff); with a never-reset station
the system-wide ratio can exceed 1.  The busy-time counter of a station is
the summed duration of its counted successful attempts (aloha.py line 170).
The per-station dichotomy hypothesis is the reset dynamics of aloha.py
lines 197-200: if the reset fired, it fired at a service completion at or
after the cutoff and zeroed the busy time, so every still-counted attempt
belongs to a later service and starts at or after the cutoff; if it never
fired, every completed service finished strictly before the cutoff, so
every counted attempt ends by the cutoff.  Distinct successful attempts
never overlap, hence each side of the dichotomy bounds the summed busy time
by its window. -/
theorem c6_utilization_amended
    (tr : List Op) (tau : Nat → Nat) (Ls : List (List CountedAttempt))
    (hwf : WFTrace tr tau)
    (hok : ∀ a ∈ Ls.flatten, countedOk tr a)
    (hwindow : ∀ L ∈ Ls,
      (∀ a ∈ L, TRANSIENT_TIME ≤ a.s) ∨ (∀ a ∈ L, a.s + a.d ≤ TRANSIENT_TIME))
    (hdist : Ls.flatten.Pairwise fun a b => a.i ≠ b.i) :
    (∀ L ∈ Ls,
      0 ≤ station_report_U (busyOf L) TERMINATE_TIME ∧
        station_report_U (busyOf L) TERMINATE_TIME ≤ 1) ∧
    0 ≤ system_report_U (busyOf Ls.flatten) ∧
    ((∀ a ∈ Ls.flatten, TRANSIENT_TIME ≤ a.s) →
      system_report_U (busyOf Ls.flatten) ≤ 1) := by
  have hdisj : Ls.flatten.Pairwise
      (fun a b => ¬ intervalsOverlap (a.s, a.d) (b.s, b.d)) := by
    refine hdist.imp_of_mem ?_
    intro a b ha hb hne
    exact successful_attempts_disjoint hwf (hok a ha).1 (hok b hb).1 hne
      (hok a ha).2.1 (hok b hb).2.1
  have hpos : (0 : ℚ) < (STEADY_STATE_TIME : ℚ) := by
    norm_num [STEADY_STATE_TIME, TERMINATE_TIME, TRANSIENT_TIME]
  have hden : (0 : ℚ) < (TERMINATE_TIME : ℚ) - (TRANSIENT_TIME : ℚ) := by
    norm_num [TERMINATE_TIME, TRANSIENT_TIME]
  have hcast : ((STEADY_STATE_TIME : Nat) : ℚ) =
      (TERMINATE_TIME : ℚ) - (TRANSIENT_TIME : ℚ) := by
    unfold STEADY_STATE_TIME
    rw [Nat.cast_sub]
    norm_num [TERMINATE_TIME, TRANSIENT_TIME]
  have hboundL : ∀ L ∈ Ls, busyOf L ≤ STEADY_STATE_TIME := by
    intro L hL
    have hsub : L.Sublist Ls.flatten := List.sublist_flatten_of_mem hL
    have hdL : L.Pairwise (fun a b => ¬ intervalsOverlap (a.s, a.d) (b.s, b.d)) :=
      hdisj.sublist hsub
    rcases hwindow L hL with hin | hpre
    · have hmain := sum_snd_le_of_disjoint (L.map fun a => (a.s, a.d))
        TRANSIENT_TIME TERMINATE_TIME ?_ ?_
      · unfold busyOf
        rw [List.map_map] at hmain
        exact hmain
      · intro p hp
        rcases List.mem_map.mp hp with ⟨a, ha, rfl⟩
        have hc := hok a (hsub.subset ha)
        exact ⟨(regTime_spec hwf.2.1 hc.1.2.1).2, hin a ha, hc.2.2⟩
      · rw [List.pairwise_map]
        exact hdL
    · have hmain := sum_snd_le_of_disjoint (L.map fun a => (a.s, a.d))
        0 TRANSIENT_TIME ?_ ?_
      · have h25 : TRANSIENT_TIME - 0 ≤ STEADY_STATE_TIME := by
          norm_num [STEADY_STATE_TIME, TERMINATE_TIME, TRANSIENT_TIME]
        unfold busyOf
        rw [List.map_map] at hmain
        exact Nat.le_trans hmain h25
      · intro p hp
        rcases List.mem_map.mp hp with ⟨a, ha, rfl⟩
        have hc := hok a (hsub.subset ha)
        exact ⟨(regTime_spec hwf.2.1 hc.1.2.1).2, Nat.zero_le _, hpre a ha⟩
      · rw [List.pairwise_map]
        exact hdL
  refine ⟨?_, ?_, ?_⟩
  · intro L hL
    have hbusy := hboundL L hL
    constructor
    · exact div_nonneg (Nat.cast_nonneg _) (le_of_lt hden)
    · unfold station_report_U
      rw [div_le_one hden]
      have hq : (busyOf L : ℚ) ≤ ((STEADY_STATE_TIME : Nat) : ℚ) := by
        exact_mod_cast hbusy
      rw [hcast] at hq
      exact hq
  · exact div_nonneg (Nat.cast_nonneg _) (le_of_lt hpos)
  · intro hall
    have hmain := sum_snd_le_of_disjoint (Ls.flatten.map fun a => (a.s, a.d))
      TRANSIENT_TIME TERMINATE_TIME ?_ ?_
    · have htot : busyOf Ls.flatten ≤ STEADY_STATE_TIME := by
        unfold busyOf
        rw [List.map_map] at hmain
        exact hmain
      unfold system_report_U
      rw [div_le_one hpos]
      exact_mod_cast htot
    · intro p hp
      rcases List.mem_map.mp hp with ⟨a, ha, rfl⟩
      have hc := hok a ha
      exact ⟨(regTime_spec hwf.2.1 hc.1.2.1).2, hall a ha, hc.2.2⟩
    · rw [List.pairwise_map]
      exact hdisj

/-- Witness for the amended C6 on a concrete replication with one counted
successful attempt inside the steady-state window. -/
theorem c6_amended_witness :
    (0 ≤ station_report_U (busyOf [exCounted]) TERMINATE_TIME ∧
      station_report_U (busyOf [exCounted]) TERMINATE_TIME ≤ 1) ∧
    system_report_U (busyOf ([[exCounted]] : List (List CountedAttempt)).flatten) ≤ 1 := by
  have h := c6_utilization_amended exTrace2 exTau2 [[exCounted]] (by decide)
    (by decide) (by decide) (by decide)
  exact ⟨h.1 [exCounted] (by decide), h.2.2 (by decide)⟩

/-! ### Determinism of a whole run -/

/-- Claim C9: two runs executed with identical parameters and identical
variate draw streams produce identical final per-station counters.  The
whole run, arrivals, collision checks, back-off and the transient reset
included, is the function `simulate` of the configuration alone, with every
event fired in timestamp order and ties broken by scheduling order. -/
theorem c9_determinism :
    ∀ (fuel : Nat) (cfg1 cfg2 : SimConfig), cfg1 = cfg2 →
      simulate fuel cfg1 = simulate fuel cfg2 := by
  intro fuel cfg1 cfg2 h
  rw [h]

/-- Witness for C9 at a concrete two-station configuration. -/
theorem c9_witness :
    exCfg = exCfg ∧ simulate 40 exCfg = simulate 40 exCfg :=
  ⟨rfl, c9_determinism 40 exCfg exCfg rfl⟩
